import Mathlib

/-!
Shallow embedding of the email system (`email_models.py`): an email address
value object with normalization, validation and masking; an email entity with
a prepare step that trims fields, derives a short body and a readiness status;
a fan-out delivery service producing one copy per recipient; and a logging
variant that formats one audit line per outcome.

Python strings are modelled as `List Char`; `datetime.now()` is modelled by an
abstract tick (`Nat`) for the stored date and an abstract timestamp text for
the log line.  A raised `ValueError` is modelled by `Except`/`Option` failure.
-/

deriving instance DecidableEq for Except

/-- Whitespace in the sense of Python `str.strip` / `str.split` with no
arguments, restricted to the ASCII range. -/
def isSpacePy (c : Char) : Bool :=
  c = ' ' || c = '\t' || c = '\n' || c = '\r' || c = '\x0b' || c = '\x0c'

/-- Python `str.strip`: remove leading and trailing whitespace. -/
def pyStrip (l : List Char) : List Char :=
  (l.dropWhile isSpacePy).rdropWhile isSpacePy

/-- Python `str.lower`, restricted to the ASCII letters. -/
def pyLower (l : List Char) : List Char :=
  l.map Char.toLower

/-- Python `str.split` with no arguments: split on whitespace runs, discarding
empty words. -/
def pySplitWs (l : List Char) : List (List Char) :=
  (l.splitOnP isSpacePy).filter (fun w => w ≠ [])

/-- The `Status` string enum of the source: five members, whose `.value` is
the lowercase name. -/
inductive Status where
  | draft
  | ready
  | sent
  | failed
  | invalid
deriving DecidableEq

/-- The `.value` of a `Status` member (Python `StrEnum` value). -/
def statusValue : Status → List Char
  | .draft => "draft".toList
  | .ready => "ready".toList
  | .sent => "sent".toList
  | .failed => "failed".toList
  | .invalid => "invalid".toList

/-- The two `ValueError` raise sites of `EmailAddress._validate`. -/
inductive AddrError where
  | invalidEmail
  | invalidDomain
deriving DecidableEq

/-- The `EmailAddress` wrapper object; `value` is the stored `_address`. -/
structure EmailAddress where
  value : List Char
deriving DecidableEq

/-- `EmailAddress._normalize`: `address.strip().lower()`. -/
def pyNormalize (address : List Char) : List Char :=
  pyLower (pyStrip address)

/-- `EmailAddress._validate`'s domain check: `any(address.endswith(tld) for
tld in (".com", ".ru", ".net"))`. -/
def domain_ok (address : List Char) : Bool :=
  (".com".toList).isSuffixOf address ||
  (".ru".toList).isSuffixOf address ||
  (".net".toList).isSuffixOf address

/-- `EmailAddress.__init__`: normalize, then validate (raising `ValueError`
when `"@"` is absent or the domain check fails), then store the address. -/
def mkEmailAddress (address : List Char) : Except AddrError EmailAddress :=
  if '@' ∈ pyNormalize address then
    if domain_ok (pyNormalize address) then .ok ⟨pyNormalize address⟩
    else .error .invalidDomain
  else
    .error .invalidEmail

/-- `EmailAddress.masked`: `name, domain = self._address.split("@")` followed
by `f"{name[:2]}***@{domain}"`.  The two-name unpacking raises `ValueError`
(modelled by `none`) unless the split yields exactly two parts. -/
def masked (a : EmailAddress) : Option (List Char) :=
  match a.value.splitOn '@' with
  | [name, domain] => some (name.take 2 ++ ("***@".toList) ++ domain)
  | _ => none

/-- The `Email` dataclass.  `recipients` is already a list (`__post_init__`
coerces a single address to a singleton list); `sender` is an `Option` so the
falsiness test `not self.sender` of `_validate_fields` is expressible; `date`
holds an abstract tick; defaults in the source are `date=None`,
`short_body=None`, `status=DRAFT`. -/
structure Email where
  subject : List Char
  body : List Char
  sender : Option EmailAddress
  recipients : List EmailAddress
  date : Option Nat
  short_body : Option (List Char)
  status : Status
deriving DecidableEq

/-- `Email.add_short_body`: collapse whitespace via `" ".join(body.split())`,
keep the first `limit` characters and append `"..."` when the collapsed text
is longer than `limit` (the source's default argument is 20). -/
def add_short_body (limit : Nat) (e : Email) : Email :=
  let clean := List.intercalate [' '] (pySplitWs e.body)
  let sb := clean.take limit ++ (if clean.length > limit then ("...".toList) else [])
  { e with short_body := some sb }

/-- The short-body text computed by `Email.add_short_body` from a body text:
the whitespace-collapsed body truncated to `limit` characters, with the
ellipsis appended exactly when the collapsed body is longer than `limit`. -/
def shortBodyOf (limit : Nat) (b : List Char) : List Char :=
  let clean := List.intercalate [' '] (pySplitWs b)
  clean.take limit ++ (if clean.length > limit then ("...".toList) else [])

/-- `Email._validate_fields`: INVALID when the (already stripped) subject or
body is empty, or the sender is absent, or the recipients list is empty;
READY otherwise. -/
def validate_fields (e : Email) : Email :=
  if e.subject = [] ∨ e.body = [] then { e with status := .invalid }
  else if e.sender = none ∨ e.recipients = [] then { e with status := .invalid }
  else { e with status := .ready }

/-- `Email.prepare`: strip subject and body, derive the short body with the
default limit 20, then recompute the status. -/
def prepare (e : Email) : Email :=
  validate_fields (add_short_body 20 { e with subject := pyStrip e.subject, body := pyStrip e.body })

/-- `EmailService.send_email`: for each recipient, deep-copy the email, give
the copy just that recipient, a fresh date and a resolved status, and collect
the copies in order.  The loop never assigns to the source object, so the
second component — the state of the source when the method returns — is the
argument itself. -/
def sendEmail (now : Nat) (email : Email) : List Email × Email :=
  (email.recipients.map (fun recipient =>
      { email with
          recipients := [recipient]
          date := some now
          status := if email.status = Status.ready then Status.sent else Status.failed }),
   email)

/-- One line of `LoggingEmailService.send_email`'s log: timestamp text, the
masked sender of the original email, the masked recipient of the outcome copy
and the outcome's status value.  Absent sender (`AttributeError`), a masked
call raising (`ValueError`) or a missing `recipients[0]` make the formatting
fail. -/
def logLine (ts : List Char) (sender : Option EmailAddress) (msg : Email) : Option (List Char) := do
  let s ← sender
  let sm ← masked s
  let r ← msg.recipients.head?
  let rm ← masked r
  pure (ts ++ (": FROM ".toList) ++ sm ++ (" TO ".toList) ++ rm ++
        (" STATUS=".toList) ++ statusValue msg.status ++ ['\n'])

/-- `LoggingEmailService.send_email`: delegate to `EmailService.send_email`,
then write one log line per outcome; a formatting failure propagates as a
raised exception (`none`), in which case no outcome sequence is returned. -/
def loggingSendEmail (ts : List Char) (now : Nat) (email : Email) :
    Option (List Email × List (List Char)) :=
  let results := (sendEmail now email).1
  match results.mapM (logLine ts email.sender) with
  | some lines => some (results, lines)
  | none => none

/-- Specification-side collapse: replace every whitespace run by a single
space, character by character. -/
def wsCollapse : List Char → List Char
  | [] => []
  | [c] => [if isSpacePy c then ' ' else c]
  | a :: b :: t =>
    if isSpacePy a && isSpacePy b then wsCollapse (b :: t)
    else (if isSpacePy a then ' ' else a) :: wsCollapse (b :: t)

/-- The spec's description of the short body: the collapsed text truncated to
`limit` characters, with the ellipsis appended exactly when the collapsed
text is longer than `limit`. -/
def specShortBody (limit : Nat) (b : List Char) : List Char :=
  let collapsed := wsCollapse b
  collapsed.take limit ++ (if collapsed.length > limit then ("...".toList) else [])

/-- A concrete ready message used to witness the logging theorem. -/
def wMessage : Email :=
  ⟨("S".toList), ("B".toList), some ⟨("me@me.com".toList)⟩,
   [⟨("you@you.com".toList)⟩], none, none, Status.ready⟩

/-! ### Helper lemmas -/

theorem dropWhile_rdropWhile_self (t : List Char) (h : t.dropWhile isSpacePy = t) :
    (t.rdropWhile isSpacePy).dropWhile isSpacePy = t.rdropWhile isSpacePy := by
  rw [List.dropWhile_eq_self_iff]
  intro hl
  have hp : t.rdropWhile isSpacePy <+: t := List.rdropWhile_prefix _ _
  have hlen : 0 < t.length := lt_of_lt_of_le hl hp.length_le
  have hg : t.get ⟨0, hlen⟩ = (t.rdropWhile isSpacePy).get ⟨0, hl⟩ := by
    simp only [List.get_eq_getElem]
    exact (hp.getElem hl).symm
  have hne := List.dropWhile_eq_self_iff.mp h hlen
  rw [← hg]
  exact hne

theorem pyStrip_idem (l : List Char) : pyStrip (pyStrip l) = pyStrip l := by
  unfold pyStrip
  have h1 : (l.dropWhile isSpacePy).dropWhile isSpacePy = l.dropWhile isSpacePy :=
    List.dropWhile_idempotent _ _
  rw [dropWhile_rdropWhile_self _ h1, List.rdropWhile_idempotent]

theorem prepare_subject (e : Email) : (prepare e).subject = pyStrip e.subject := by
  unfold prepare validate_fields add_short_body
  split_ifs <;> rfl

theorem prepare_body (e : Email) : (prepare e).body = pyStrip e.body := by
  unfold prepare validate_fields add_short_body
  split_ifs <;> rfl

theorem prepare_sender (e : Email) : (prepare e).sender = e.sender := by
  unfold prepare validate_fields add_short_body
  split_ifs <;> rfl

theorem prepare_recipients (e : Email) : (prepare e).recipients = e.recipients := by
  unfold prepare validate_fields add_short_body
  split_ifs <;> rfl

theorem prepare_short_body_eq (e : Email) :
    (prepare e).short_body = some (shortBodyOf 20 (pyStrip e.body)) := by
  unfold prepare validate_fields add_short_body shortBodyOf
  split_ifs <;> rfl

theorem prepare_status_eq (e : Email) :
    (prepare e).status =
      if pyStrip e.subject = [] ∨ pyStrip e.body = [] ∨ e.sender = none ∨ e.recipients = []
      then Status.invalid else Status.ready := by
  unfold prepare validate_fields add_short_body
  split_ifs <;> first | rfl | tauto

/-! ### Claim theorems -/

/-- C1.  Fan-out law: `EmailService.send_email` returns one outcome copy per
recipient of the source message, each copy holding exactly the corresponding
single recipient, in the source order (so an empty list when there are no
recipients); and the state of the source message when the call returns is the
message exactly as passed in, status and timestamp included. -/
theorem sendEmail_fanout (now : Nat) (e : Email) :
    (sendEmail now e).1.length = e.recipients.length ∧
    (sendEmail now e).1.map Email.recipients = e.recipients.map (fun r => [r]) ∧
    (sendEmail now e).2 = e := by
  refine ⟨?_, ?_, rfl⟩
  · simp [sendEmail]
  · simp only [sendEmail, List.map_map]
    rfl

/-- C2.  Status resolution law: every outcome copy produced by
`EmailService.send_email` has status SENT when the source message's status at
call time is READY, and status FAILED for any other source status; the
operation is total, so it never fails for any input message state. -/
theorem sendEmail_status_resolution (now : Nat) (e : Email) (c : Email)
    (hc : c ∈ (sendEmail now e).1) :
    c.status = if e.status = Status.ready then Status.sent else Status.failed := by
  simp only [sendEmail, List.mem_map] at hc
  obtain ⟨r, _, rfl⟩ := hc
  rfl

/-- Witness for C2 at a concrete ready message with one recipient. -/
theorem sendEmail_status_resolution_witness :
    (⟨("Subj".toList), ("Body".toList), some ⟨("me@me.com".toList)⟩,
        [⟨("you@you.com".toList)⟩], some 0, none, Status.sent⟩ : Email) ∈
      (sendEmail 0 (⟨("Subj".toList), ("Body".toList), some ⟨("me@me.com".toList)⟩,
        [⟨("you@you.com".toList)⟩], none, none, Status.ready⟩ : Email)).1 ∧
    (⟨("Subj".toList), ("Body".toList), some ⟨("me@me.com".toList)⟩,
        [⟨("you@you.com".toList)⟩], some 0, none, Status.sent⟩ : Email).status =
      if (⟨("Subj".toList), ("Body".toList), some ⟨("me@me.com".toList)⟩,
        [⟨("you@you.com".toList)⟩], none, none, Status.ready⟩ : Email).status = Status.ready
      then Status.sent else Status.failed :=
  ⟨by decide, sendEmail_status_resolution 0 _ _ (by decide)⟩

/-- C4.  Prepare status law: after `Email.prepare` the status is INVALID
exactly when the trimmed subject is empty, the trimmed body is empty, the
sender is absent, or the recipients list is empty, and READY otherwise; the
operation is total, so it always terminates in one of these two statuses. -/
theorem prepare_status_law (e : Email) :
    (prepare e).status =
      if pyStrip e.subject = [] ∨ pyStrip e.body = [] ∨ e.sender = none ∨ e.recipients = []
      then Status.invalid else Status.ready :=
  prepare_status_eq e

/-- C5.  Prepare idempotence: a second call to `Email.prepare` leaves the
subject, body, short body and status of the first call unchanged. -/
theorem prepare_idempotent (e : Email) :
    (prepare (prepare e)).subject = (prepare e).subject ∧
    (prepare (prepare e)).body = (prepare e).body ∧
    (prepare (prepare e)).short_body = (prepare e).short_body ∧
    (prepare (prepare e)).status = (prepare e).status := by
  refine ⟨?_, ?_, ?_, ?_⟩
  · rw [prepare_subject, prepare_subject, pyStrip_idem]
  · rw [prepare_body, prepare_body, pyStrip_idem]
  · rw [prepare_short_body_eq, prepare_short_body_eq, prepare_body, pyStrip_idem]
  · rw [prepare_status_eq, prepare_status_eq, prepare_subject, prepare_body,
      prepare_sender, prepare_recipients, pyStrip_idem, pyStrip_idem]

/-- C8.  Normalization law: a successfully constructed `EmailAddress` stores
the input with surrounding whitespace trimmed and all characters lowercased. -/
theorem mk_value_normalized (s : List Char) (a : EmailAddress)
    (h : mkEmailAddress s = .ok a) : a.value = pyLower (pyStrip s) := by
  unfold mkEmailAddress at h
  split_ifs at h
  cases h
  rfl

/-- Witness for C8 at the mixed-case, whitespace-padded example input. -/
theorem mk_value_normalized_witness :
    mkEmailAddress ("  UsEr@Example.COM  ".toList) = .ok ⟨("user@example.com".toList)⟩ ∧
    (⟨("user@example.com".toList)⟩ : EmailAddress).value =
      pyLower (pyStrip ("  UsEr@Example.COM  ".toList)) :=
  ⟨by decide, mk_value_normalized ("  UsEr@Example.COM  ".toList) _ (by decide)⟩

/-- C10.  The construction of `EmailAddress` accepts a value with two `@`
separators and an allowed suffix, yet `masked` on the resulting object raises
(`none`): the masked view is not total over constructible addresses. -/
theorem mk_masked_partial :
    mkEmailAddress ("a@b@c.com".toList) = .ok ⟨("a@b@c.com".toList)⟩ ∧
    masked ⟨("a@b@c.com".toList)⟩ = none := by
  constructor
  · decide
  · decide

/-- C3 counterexample: the raw string with an empty local part before its
single separator normalizes to itself and still constructs successfully,
though the claim requires a non-empty local part. -/
theorem mk_accepts_empty_local :
    mkEmailAddress ("@b.com".toList) = .ok ⟨("@b.com".toList)⟩ ∧
    (pyNormalize ("@b.com".toList)).takeWhile (fun c => c != '@') = [] := by
  constructor <;> decide

/-- C3 amended: construction succeeds exactly when the normalized (trimmed,
lowercased) value contains at least one separator and ends with one of the
allowed suffixes; separator multiplicity and non-emptiness of the local and
domain parts are not checked, and a violation of either performed check fails
with a validation error, so no address object exists outside these checks. -/
theorem mk_ok_iff (s : List Char) :
    (∃ a, mkEmailAddress s = .ok a) ↔
      ('@' ∈ pyNormalize s ∧ domain_ok (pyNormalize s) = true) := by
  unfold mkEmailAddress
  split_ifs with h1 h2
  · simp [h1, h2]
  · simp [h2]
  · simp [h1]

/-- C7 counterexample: this address constructs successfully, but evaluating
`masked` on it raises instead of returning the masked string, so the claimed
equation does not hold for every successfully constructed address. -/
theorem masked_raises_on_constructed :
    mkEmailAddress ("x@y@z.net".toList) = .ok ⟨("x@y@z.net".toList)⟩ ∧
    masked ⟨("x@y@z.net".toList)⟩ = none := by
  constructor <;> decide

/-- C7 amended: for every successfully constructed address whose value has
exactly one separator (value = local ++ `@` ++ domain with no separator in
either part), `masked` returns the first two characters of the local part
(fewer when it is shorter) followed by the mask and the domain part, so it
never reveals more than two local-part characters. -/
theorem masked_law (s : List Char) (a : EmailAddress) (name domain : List Char)
    (hmk : mkEmailAddress s = .ok a)
    (hv : a.value = name ++ '@' :: domain)
    (hn : '@' ∉ name) (hd : '@' ∉ domain) :
    masked a = some (name.take 2 ++ ("***@".toList) ++ domain) ∧
    (name.take 2).length ≤ 2 := by
  have hname : ∀ x ∈ name, ¬((x == '@') = true) := by
    intro x hx
    simp only [beq_iff_eq]
    rintro rfl
    exact hn hx
  have hdom : ∀ x ∈ domain, ¬((x == '@') = true) := by
    intro x hx
    simp only [beq_iff_eq]
    rintro rfl
    exact hd hx
  have hsplit : (name ++ '@' :: domain).splitOn '@' = [name, domain] := by
    show (name ++ '@' :: domain).splitOnP (· == '@') = [name, domain]
    rw [List.splitOnP_first _ _ hname '@' (by simp) domain,
        List.splitOnP_eq_single _ _ hdom]
  constructor
  · unfold masked
    rw [hv, hsplit]
  · rw [List.length_take]
    exact min_le_left _ _

/-- Witness for C7 at the example address of the claim. -/
theorem masked_law_witness :
    mkEmailAddress ("alexander@example.com".toList) = .ok ⟨("alexander@example.com".toList)⟩ ∧
    masked ⟨("alexander@example.com".toList)⟩ = some ("al***@example.com".toList) := by
  refine ⟨by decide, ?_⟩
  have h := masked_law ("alexander@example.com".toList) ⟨("alexander@example.com".toList)⟩
      ("alexander".toList) ("example.com".toList) (by decide) (by decide) (by decide) (by decide)
  exact h.1.trans (by decide)

/-- C9 counterexample: a ready message whose sender's stored value has two
separators (constructible, see the construction theorems) makes the base
service produce one outcome, while the logging service raises while
formatting the first line and returns no outcome sequence at all. -/
theorem loggingSend_raises :
    (sendEmail 0 (⟨("S".toList), ("B".toList), some ⟨("a@b@c.com".toList)⟩,
        [⟨("x@y.com".toList)⟩], none, none, Status.ready⟩ : Email)).1.length = 1 ∧
    loggingSendEmail ("T".toList) 0 (⟨("S".toList), ("B".toList), some ⟨("a@b@c.com".toList)⟩,
        [⟨("x@y.com".toList)⟩], none, none, Status.ready⟩ : Email) = none := by
  constructor <;> decide

/-- C9 amended: for every message whose sender is present and masks
successfully and all of whose recipients mask successfully, the logging
service returns exactly the base service's outcome sequence unchanged,
together with one log line per outcome in order, each line consisting of the
timestamp text, `FROM` the masked sender of the original message, `TO` the
masked recipient of that outcome (outcome `i` holds source recipient `i`),
and `STATUS=` followed by the lowercase status value of that outcome (every
outcome's status being the resolved one). -/
theorem loggingSend_log (ts : List Char) (now : Nat) (email : Email)
    (s : EmailAddress) (sm : List Char)
    (hs : email.sender = some s) (hsm : masked s = some sm)
    (hr : ∀ r ∈ email.recipients, (masked r).isSome) :
    loggingSendEmail ts now email =
      some ((sendEmail now email).1,
        email.recipients.map (fun r =>
          ts ++ (": FROM ".toList) ++ sm ++ (" TO ".toList) ++ ((masked r).getD []) ++
          (" STATUS=".toList) ++
          statusValue (if email.status = Status.ready then Status.sent else Status.failed) ++
          ['\n'])) := by
  have key : ∀ rs : List EmailAddress, (∀ r ∈ rs, (masked r).isSome) →
      (rs.map (fun recipient =>
        { email with
            recipients := [recipient]
            date := some now
            status := if email.status = Status.ready then Status.sent
                      else Status.failed })).mapM (logLine ts email.sender) =
        some (rs.map (fun r =>
          ts ++ (": FROM ".toList) ++ sm ++ (" TO ".toList) ++ ((masked r).getD []) ++
          (" STATUS=".toList) ++
          statusValue (if email.status = Status.ready then Status.sent else Status.failed) ++
          ['\n'])) := by
    intro rs hrs
    induction rs with
    | nil => rfl
    | cons r rest ih =>
      obtain ⟨rm, hrm⟩ := Option.isSome_iff_exists.mp (hrs r (by simp))
      have h1 : logLine ts email.sender
          ({ email with
              recipients := [r]
              date := some now
              status := if email.status = Status.ready then Status.sent
                        else Status.failed }) =
          some (ts ++ (": FROM ".toList) ++ sm ++ (" TO ".toList) ++ ((masked r).getD []) ++
            (" STATUS=".toList) ++
            statusValue (if email.status = Status.ready then Status.sent else Status.failed) ++
            ['\n']) := by
        simp [logLine, hs, hsm, hrm]
      have h2 := ih (fun x hx => hrs x (by simp [hx]))
      simp only [List.map_cons, List.mapM_cons, h1, h2]
      rfl
  show (match ((sendEmail now email).1).mapM (logLine ts email.sender) with
        | some lines => some ((sendEmail now email).1, lines)
        | none => none) = _
  rw [show ((sendEmail now email).1) = email.recipients.map _ from rfl,
      key email.recipients hr]

/-- Witness for C9 at a concrete ready message with a well-formed sender and
one well-formed recipient. -/
theorem loggingSend_log_witness :
    loggingSendEmail ("T".toList) 0 wMessage =
      some ((sendEmail 0 wMessage).1,
        wMessage.recipients.map (fun r =>
          ("T".toList) ++ (": FROM ".toList) ++ ("me***@me.com".toList) ++ (" TO ".toList) ++
          ((masked r).getD []) ++ (" STATUS=".toList) ++
          statusValue (if wMessage.status = Status.ready then Status.sent else Status.failed) ++
          ['\n'])) :=
  loggingSend_log ("T".toList) 0 wMessage ⟨("me@me.com".toList)⟩ ("me***@me.com".toList)
    (by decide) (by decide) (by decide)

/-! ### Whitespace-collapse refinement

The spec describes the short-body computation as collapsing every internal
whitespace run of the trimmed body to a single space.  `wsCollapse` is that
description as a definition; the theorems below show the source's
`" ".join(body.split())` computes exactly it on trimmed input. -/

theorem wsCollapse_cons_not (c : Char) (l : List Char) (hc : isSpacePy c = false) :
    wsCollapse (c :: l) = c :: wsCollapse l := by
  cases l with
  | nil => simp [wsCollapse, hc]
  | cons d t => simp [wsCollapse, hc]

theorem wsCollapse_append_not (w l : List Char) :
    (∀ x ∈ w, isSpacePy x = false) → wsCollapse (w ++ l) = w ++ wsCollapse l := by
  induction w with
  | nil => intro _; rfl
  | cons a wa ih =>
    intro hw
    rw [List.cons_append, wsCollapse_cons_not a _ (hw a (by simp)),
        ih (fun x hx => hw x (by simp [hx])), List.cons_append]

theorem wsCollapse_no_space (w : List Char) (hw : ∀ x ∈ w, isSpacePy x = false) :
    wsCollapse w = w := by
  have h := wsCollapse_append_not w [] hw
  simpa [wsCollapse] using h

theorem wsCollapse_spaces (sp : List Char) (c : Char) (hc : isSpacePy c = false)
    (t : List Char) :
    (∀ x ∈ sp, isSpacePy x = true) → sp ≠ [] →
    wsCollapse (sp ++ c :: t) = ' ' :: wsCollapse (c :: t) := by
  induction sp with
  | nil => intro _ h; exact absurd rfl h
  | cons a sa ih =>
    intro hsp _
    cases sa with
    | nil => simp [wsCollapse, hsp a (by simp), hc]
    | cons b sb =>
      have ha := hsp a (by simp)
      have hb := hsp b (by simp)
      calc wsCollapse ((a :: b :: sb) ++ c :: t)
          = wsCollapse (a :: b :: (sb ++ c :: t)) := rfl
        _ = wsCollapse (b :: (sb ++ c :: t)) := by simp [wsCollapse, ha, hb]
        _ = wsCollapse ((b :: sb) ++ c :: t) := rfl
        _ = ' ' :: wsCollapse (c :: t) :=
            ih (fun x hx => hsp x (by simp [hx])) (by simp)

theorem pySplitWs_cons_space (c : Char) (t : List Char) (hc : isSpacePy c = true) :
    pySplitWs (c :: t) = pySplitWs t := by
  unfold pySplitWs
  rw [List.splitOnP_cons, if_pos hc, List.filter_cons]
  simp

theorem pySplitWs_spaces (sp t : List Char) :
    (∀ x ∈ sp, isSpacePy x = true) → pySplitWs (sp ++ t) = pySplitWs t := by
  induction sp with
  | nil => intro _; rfl
  | cons a sa ih =>
    intro hsp
    rw [List.cons_append, pySplitWs_cons_space a _ (hsp a (by simp))]
    exact ih (fun x hx => hsp x (by simp [hx]))

theorem pySplitWs_word_sep (word : List Char) (hword : ∀ x ∈ word, isSpacePy x = false)
    (hwne : word ≠ []) (d : Char) (hd : isSpacePy d = true) (t : List Char) :
    pySplitWs (word ++ d :: t) = word :: pySplitWs t := by
  unfold pySplitWs
  rw [List.splitOnP_first _ _ (fun x hx => by simp [hword x hx]) d hd t,
      List.filter_cons]
  simp [hwne]

theorem pySplitWs_ne_nil (e : Char) (t : List Char) (he : isSpacePy e = false) :
    pySplitWs (e :: t) ≠ [] := by
  unfold pySplitWs
  rw [List.splitOnP_cons, if_neg (by simp [he])]
  cases hsp : t.splitOnP isSpacePy with
  | nil => exact absurd hsp (List.splitOnP_ne_nil _ t)
  | cons w ws => simp [List.filter_cons]

theorem intercalate_sp_single (w : List Char) : List.intercalate [' '] [w] = w := by
  simp [List.intercalate]

theorem intercalate_sp_cons (w : List Char) (ws : List (List Char)) (h : ws ≠ []) :
    List.intercalate [' '] (w :: ws) = w ++ ' ' :: List.intercalate [' '] ws := by
  cases ws with
  | nil => exact absurd rfl h
  | cons v vs => simp [List.intercalate, List.intersperse_cons_cons]

theorem getLast_eq_of_eq_append (l w s : List Char) (h : l = w ++ s) (hs : s ≠ [])
    (hl : l ≠ []) : l.getLast hl = s.getLast hs := by
  subst h
  exact List.getLast_append_of_ne_nil hs

theorem join_words_eq_wsCollapse (n : Nat) : ∀ l : List Char, l.length ≤ n →
    l.dropWhile isSpacePy = l → l.rdropWhile isSpacePy = l →
    List.intercalate [' '] (pySplitWs l) = wsCollapse l := by
  induction n with
  | zero =>
    intro l hl _ _
    have hnil : l = [] := List.length_eq_zero.mp (Nat.le_zero.mp hl)
    subst hnil
    rfl
  | succ n ih =>
    intro l hl h1 h2
    cases l with
    | nil => rfl
    | cons c t =>
      have hc : isSpacePy c = false := by
        have h := List.dropWhile_eq_self_iff.mp h1 (by simp)
        simpa using h
      obtain ⟨word, hword_def⟩ : ∃ w, w = (c :: t).takeWhile (fun x => !isSpacePy x) :=
        ⟨_, rfl⟩
      obtain ⟨rest, hrest_def⟩ : ∃ r, r = (c :: t).dropWhile (fun x => !isSpacePy x) :=
        ⟨_, rfl⟩
      have happ : word ++ rest = c :: t := by
        rw [hword_def, hrest_def]
        exact List.takeWhile_append_dropWhile _ _
      have hword : ∀ x ∈ word, isSpacePy x = false := by
        intro x hx
        rw [hword_def] at hx
        have h := List.mem_takeWhile_imp hx
        simpa using h
      have hwne : word ≠ [] := by
        rw [hword_def, List.takeWhile_cons, if_pos (by simp [hc])]
        simp
      cases hrest : rest with
      | nil =>
        have hleq : c :: t = word := by rw [← happ, hrest, List.append_nil]
        rw [hleq]
        have hsingle : word.splitOnP isSpacePy = [word] :=
          List.splitOnP_eq_single _ _ (fun x hx => by simp [hword x hx])
        rw [show pySplitWs word = [word] by
              unfold pySplitWs
              rw [hsingle, List.filter_cons]
              simp [hwne],
            intercalate_sp_single, wsCollapse_no_space word hword]
      | cons d r2 =>
        have hd : isSpacePy d = true := by
          have h := List.head?_dropWhile_not (fun x => !isSpacePy x) (c :: t)
          rw [← hrest_def, hrest] at h
          simpa using h
        obtain ⟨sp, hsp_def⟩ : ∃ s, s = rest.takeWhile isSpacePy := ⟨_, rfl⟩
        obtain ⟨rest2, hrest2_def⟩ : ∃ r, r = rest.dropWhile isSpacePy := ⟨_, rfl⟩
        have happ2 : sp ++ rest2 = rest := by
          rw [hsp_def, hrest2_def]
          exact List.takeWhile_append_dropWhile _ _
        have hsp : ∀ x ∈ sp, isSpacePy x = true := by
          intro x hx
          rw [hsp_def] at hx
          exact List.mem_takeWhile_imp hx
        have hspne : sp ≠ [] := by
          rw [hsp_def, hrest, List.takeWhile_cons, if_pos hd]
          simp
        have hld : rest2.dropWhile isSpacePy = rest2 := by
          rw [hrest2_def]
          exact List.dropWhile_idempotent _ _
        cases hrest2c : rest2 with
        | nil =>
          exfalso
          have hleq : c :: t = word ++ sp := by
            rw [← happ, ← happ2, hrest2c, List.append_nil]
          have hgl := getLast_eq_of_eq_append (c :: t) word sp hleq hspne (by simp)
          have hnp := List.rdropWhile_eq_self_iff.mp h2 (by simp)
          rw [hgl] at hnp
          exact hnp (by simp [hsp _ (List.getLast_mem hspne)])
        | cons e r3 =>
          have he : isSpacePy e = false := by
            have h := List.head?_dropWhile_not isSpacePy rest
            rw [← hrest2_def, hrest2c] at h
            simpa using h
          have hlsplit : pySplitWs (c :: t) = word :: pySplitWs rest2 := by
            rw [← happ, ← happ2]
            cases hspc : sp with
            | nil => exact absurd hspc hspne
            | cons d0 sp2 =>
              have hd0 : isSpacePy d0 = true := hsp d0 (by simp [hspc])
              calc pySplitWs (word ++ ((d0 :: sp2) ++ rest2))
                  = pySplitWs (word ++ d0 :: (sp2 ++ rest2)) := rfl
                _ = word :: pySplitWs (sp2 ++ rest2) :=
                    pySplitWs_word_sep word hword hwne d0 hd0 _
                _ = word :: pySplitWs rest2 := by
                    rw [pySplitWs_spaces sp2 rest2
                        (fun x hx => hsp x (by simp [hspc, hx]))]
          have hjoin_ne : pySplitWs rest2 ≠ [] := by
            rw [hrest2c]
            exact pySplitWs_ne_nil e r3 he
          rw [hlsplit, intercalate_sp_cons word _ hjoin_ne]
          have hlen : rest2.length ≤ n := by
            have hL1 : (c :: t).length = word.length + sp.length + rest2.length := by
              rw [← happ, ← happ2]
              simp [Nat.add_assoc]
            have hw1 : 0 < word.length := List.length_pos.mpr hwne
            have hs1 : 0 < sp.length := List.length_pos.mpr hspne
            have hl2 : (c :: t).length ≤ n + 1 := hl
            rw [hL1] at hl2
            omega
          have hrd : rest2.rdropWhile isSpacePy = rest2 := by
            rw [List.rdropWhile_eq_self_iff]
            intro hne2
            have hleq2 : c :: t = (word ++ sp) ++ rest2 := by
              rw [List.append_assoc, happ2, happ]
            have hgl := getLast_eq_of_eq_append (c :: t) (word ++ sp) rest2 hleq2 hne2
              (by simp)
            have hnp := List.rdropWhile_eq_self_iff.mp h2 (by simp)
            rw [hgl] at hnp
            exact hnp
          rw [ih rest2 hlen hld hrd]
          have hleq3 : c :: t = word ++ (sp ++ rest2) := by rw [happ2, happ]
          rw [hleq3, wsCollapse_append_not word _ hword]
          congr 1
          rw [hrest2c]
          exact (wsCollapse_spaces sp e he r3 hsp hspne).symm

theorem pyStrip_dropWhile_self (l : List Char) :
    (pyStrip l).dropWhile isSpacePy = pyStrip l :=
  dropWhile_rdropWhile_self _ (List.dropWhile_idempotent _ _)

theorem pyStrip_rdropWhile_self (l : List Char) :
    (pyStrip l).rdropWhile isSpacePy = pyStrip l := by
  unfold pyStrip
  exact List.rdropWhile_idempotent _ _

theorem join_split_collapse (l : List Char)
    (h1 : l.dropWhile isSpacePy = l) (h2 : l.rdropWhile isSpacePy = l) :
    List.intercalate [' '] (pySplitWs l) = wsCollapse l :=
  join_words_eq_wsCollapse l.length l (le_refl _) h1 h2

theorem shortBody_spec (limit : Nat) (l : List Char) :
    shortBodyOf limit (pyStrip l) = specShortBody limit (pyStrip l) := by
  unfold shortBodyOf specShortBody
  rw [join_split_collapse (pyStrip l) (pyStrip_dropWhile_self l) (pyStrip_rdropWhile_self l)]

/-- C6.  Short-body computation: `Email.prepare` sets the short body to the
trimmed body with every internal whitespace run collapsed to a single space
(the specification-side `wsCollapse`), truncated to its first 20 characters,
with `"..."` appended exactly when the collapsed text is longer than 20
characters. -/
theorem prepare_short_body_law (e : Email) :
    (prepare e).short_body = some (specShortBody 20 (pyStrip e.body)) := by
  rw [prepare_short_body_eq, shortBody_spec]
